import Mathlib

/-!
Shallow embedding of the client-side video assembly pipeline of
apps/web/src/client/videoProcessing.ts, together with the helpers it uses
from shared/common.ts (ascending, assert) and the constants from
shared/constants.ts.  JavaScript numbers are modelled as exact rationals;
timestamps and durations carry the same units as in the source
(milliseconds on the input side, output-time units after rebasing).
Fallible code is modelled with Except; thrown assertions become error
values.
-/

namespace Lapse

/-- Constant TIMELAPSE_FRAME_LENGTH_MS from shared/constants.ts, 2.5 * 1000. -/
def TIMELAPSE_FRAME_LENGTH_MS : ℚ := 2.5 * 1000

/-- Constant TIMELAPSE_FPS from shared/constants.ts. -/
def TIMELAPSE_FPS : ℚ := 24

/-- Constant THUMBNAIL_SIZE from shared/constants.ts. -/
def THUMBNAIL_SIZE : ℕ := 640

/-- Derived time scale, videoProcessing.ts line 136:
timeScale = (1000 / TIMELAPSE_FRAME_LENGTH_MS) / TIMELAPSE_FPS. -/
def timeScale : ℚ := (1000 / TIMELAPSE_FRAME_LENGTH_MS) / TIMELAPSE_FPS

/-- An encoded packet (remux path) or decoded sample (transcode path):
only the fields the assembly loop reads and writes. -/
structure Packet where
  timestamp : ℚ
  duration : ℚ
deriving DecidableEq

/-- The per-session unit loop of videoConcat (remux branch lines 157 to 179;
the transcode branch, lines 190 to 209, performs the same arithmetic on
samples).  The state threaded through the loop is localFirstTimestamp
(null until the first emitted unit) and localLastTimestamp (initially 0).
Returns the emitted rebased units together with the final loop state. -/
def sessionSteps (globalTimeOffset : ℚ) :
    List Packet → Option ℚ → ℚ → List Packet × Option ℚ × ℚ
  | [], localFirstTimestamp, localLastTimestamp =>
      ([], localFirstTimestamp, localLastTimestamp)
  | packet :: rest, localFirstTimestamp, localLastTimestamp =>
      if packet.duration = 0 then
        sessionSteps globalTimeOffset rest localFirstTimestamp localLastTimestamp
      else
        let localFirst := localFirstTimestamp.getD packet.timestamp
        let relTimestamp := packet.timestamp - localFirst
        let out : Packet :=
          ⟨relTimestamp * timeScale + globalTimeOffset, packet.duration * timeScale⟩
        let r := sessionSteps globalTimeOffset rest (some localFirst) packet.timestamp
        (out :: r.1, r.2)

/-- Processing of one session inside videoConcat (lines 149 to 214): run the
unit loop starting from a null localFirstTimestamp and localLastTimestamp 0,
then advance globalTimeOffset by
(localLastTimestamp - localFirstTimestamp) * timeScale when at least one
unit was emitted (lines 181 to 183, mirrored at lines 211 to 213). -/
def processSession (globalTimeOffset : ℚ) (packets : List Packet) :
    List Packet × ℚ :=
  let r := sessionSteps globalTimeOffset packets none 0
  match r.2.1 with
  | none => (r.1, globalTimeOffset)
  | some localFirst => (r.1, globalTimeOffset + (r.2.2 - localFirst) * timeScale)

/-- The outer session loop of videoConcat (lines 141 to 215): sessions are
consumed strictly in order, each seeing the globalTimeOffset left behind by
the previous one. -/
def processSessions (globalTimeOffset : ℚ) :
    List (List Packet) → List (List Packet) × ℚ
  | [] => ([], globalTimeOffset)
  | s :: rest =>
      let r := processSession globalTimeOffset s
      let r2 := processSessions r.2 rest
      (r.1 :: r2.1, r2.2)

/-- The units of a session that survive the zero-duration skip at lines
158 to 161 (and 191 to 194): those with nonzero source duration. -/
def emittedOf (packets : List Packet) : List Packet :=
  packets.filter (fun p => p.duration != 0)

/-- Rebasing applied to one emitted unit (lines 168 and 172 to 173,
mirrored at lines 201 to 204). -/
def rebase (localFirst globalTimeOffset : ℚ) (p : Packet) : Packet :=
  ⟨(p.timestamp - localFirst) * timeScale + globalTimeOffset,
    p.duration * timeScale⟩

/-- The timestamp a session is anchored at: the timestamp of its first
emitted unit (0, never used, when the session emits nothing). -/
def anchorTs (packets : List Packet) : ℚ :=
  match emittedOf packets with
  | [] => 0
  | q :: _ => q.timestamp

/-- Value the localLastTimestamp loop variable holds after consuming a
list of emitted units, starting from the value l. -/
def lastTsFrom (l : ℚ) (es : List Packet) : ℚ :=
  es.foldl (fun _ q => q.timestamp) l

/-- Final value of localLastTimestamp for a session: the timestamp of the
last emitted unit, or the initial value 0 when nothing is emitted. -/
def lastEmTs (packets : List Packet) : ℚ :=
  lastTsFrom 0 (emittedOf packets)

theorem emittedOf_cons (p : Packet) (rest : List Packet) :
    emittedOf (p :: rest) =
      if p.duration = 0 then emittedOf rest else p :: emittedOf rest := by
  by_cases h : p.duration = 0 <;> simp [emittedOf, List.filter_cons, h]

theorem lastTsFrom_cons (l : ℚ) (p : Packet) (es : List Packet) :
    lastTsFrom l (p :: es) = lastTsFrom p.timestamp es := rfl

theorem sessionSteps_some (off f l : ℚ) (ps : List Packet) :
    sessionSteps off ps (some f) l =
      ((emittedOf ps).map (rebase f off), some f,
        lastTsFrom l (emittedOf ps)) := by
  induction ps generalizing l with
  | nil => simp [sessionSteps, emittedOf, lastTsFrom]
  | cons p rest ih =>
    rw [emittedOf_cons]
    by_cases h : p.duration = 0
    · simp only [sessionSteps, if_pos h, ih]
    · simp only [sessionSteps, if_neg h, ih, lastTsFrom_cons]
      simp [rebase, ih]

theorem sessionSteps_none_nil (off l : ℚ) (ps : List Packet)
    (h : emittedOf ps = []) :
    sessionSteps off ps none l = ([], none, l) := by
  induction ps with
  | nil => simp [sessionSteps]
  | cons p rest ih =>
    rw [emittedOf_cons] at h
    by_cases hd : p.duration = 0
    · rw [if_pos hd] at h
      simp only [sessionSteps, if_pos hd]
      exact ih h
    · rw [if_neg hd] at h
      exact absurd h (List.cons_ne_nil p (emittedOf rest))

theorem sessionSteps_none_cons (off l : ℚ) (ps : List Packet) (q : Packet)
    (es : List Packet) (h : emittedOf ps = q :: es) :
    sessionSteps off ps none l =
      ((emittedOf ps).map (rebase q.timestamp off), some q.timestamp,
        lastTsFrom l (emittedOf ps)) := by
  induction ps generalizing l with
  | nil => simp [emittedOf] at h
  | cons p rest ih =>
    rw [emittedOf_cons] at h ⊢
    by_cases hd : p.duration = 0
    · rw [if_pos hd] at h ⊢
      simp only [sessionSteps, if_pos hd]
      exact ih l h
    · rw [if_neg hd] at h ⊢
      obtain ⟨hq, hes⟩ : p = q ∧ emittedOf rest = es := by
        constructor
        · exact (List.cons.injEq p (emittedOf rest) q es ▸ h).1
        · exact (List.cons.injEq p (emittedOf rest) q es ▸ h).2
      subst hq
      simp only [sessionSteps, if_neg hd, sessionSteps_some, lastTsFrom_cons,
        Option.getD_none]
      simp [rebase]

/-- Closed form of processing one session: the emitted units are exactly
the nonzero-duration units, rebased against the session anchor, and the
global offset advances by (lastEmTs - anchorTs) * timeScale. -/
theorem processSession_eq (off : ℚ) (ps : List Packet) :
    processSession off ps =
      ((emittedOf ps).map (rebase (anchorTs ps) off),
        off + (lastEmTs ps - anchorTs ps) * timeScale) := by
  cases h : emittedOf ps with
  | nil =>
    rw [processSession, sessionSteps_none_nil off 0 ps h]
    simp [h, anchorTs, lastEmTs, lastTsFrom]
  | cons q es =>
    rw [processSession, sessionSteps_none_cons off 0 ps q es h]
    simp [h, anchorTs, lastEmTs]

theorem timeScale_eq : timeScale = 1 / 60 := by
  norm_num [timeScale, TIMELAPSE_FRAME_LENGTH_MS, TIMELAPSE_FPS]

theorem timeScale_pos : 0 < timeScale := by
  rw [timeScale_eq]; norm_num

/-- A session whose unit timestamps are non-decreasing in source order. -/
def tsMono (packets : List Packet) : Prop :=
  packets.Pairwise fun p q => p.timestamp ≤ q.timestamp

theorem initial_le_lastTsFrom :
    ∀ (es : List Packet) (c : ℚ), tsMono es →
      (∀ y ∈ es, c ≤ y.timestamp) → c ≤ lastTsFrom c es
  | [], c, _, _ => le_refl c
  | r :: rs, c, hp, h => by
      rw [lastTsFrom_cons]
      have hr := List.pairwise_cons.1 hp
      exact le_trans (h r (List.mem_cons_self r rs))
        (initial_le_lastTsFrom rs r.timestamp hr.2 hr.1)

theorem le_lastTsFrom :
    ∀ (es : List Packet) (l : ℚ), tsMono es →
      ∀ x ∈ es, x.timestamp ≤ lastTsFrom l es
  | [], _, _, x, hx => absurd hx (List.not_mem_nil x)
  | r :: rs, l, hp, x, hx => by
      rw [lastTsFrom_cons]
      have hr := List.pairwise_cons.1 hp
      rcases List.mem_cons.1 hx with h | h
      · subst h
        exact initial_le_lastTsFrom rs x.timestamp hr.2 hr.1
      · exact le_lastTsFrom rs r.timestamp hr.2 x h

theorem tsMono_emittedOf (ps : List Packet) (h : tsMono ps) :
    tsMono (emittedOf ps) :=
  h.sublist (List.filter_sublist ps)

theorem anchorTs_le (ps : List Packet) (h : tsMono ps) :
    ∀ x ∈ emittedOf ps, anchorTs ps ≤ x.timestamp := by
  intro x hx
  have hp := tsMono_emittedOf ps h
  cases he : emittedOf ps with
  | nil => rw [he] at hx; exact absurd hx (List.not_mem_nil x)
  | cons q es =>
    have ha : anchorTs ps = q.timestamp := by simp [anchorTs, he]
    rw [ha]
    rw [he] at hx hp
    rcases List.mem_cons.1 hx with h1 | h1
    · subst h1; exact le_refl _
    · exact (List.pairwise_cons.1 hp).1 x h1

theorem le_lastEmTs (ps : List Packet) (h : tsMono ps) :
    ∀ x ∈ emittedOf ps, x.timestamp ≤ lastEmTs ps := by
  intro x hx
  exact le_lastTsFrom (emittedOf ps) 0 (tsMono_emittedOf ps h) x hx

theorem anchorTs_le_lastEmTs (ps : List Packet) (h : tsMono ps) :
    anchorTs ps ≤ lastEmTs ps := by
  cases he : emittedOf ps with
  | nil => simp [anchorTs, lastEmTs, he, lastTsFrom]
  | cons q es =>
    have hp := tsMono_emittedOf ps h
    rw [he] at hp
    have hr := List.pairwise_cons.1 hp
    have ha : anchorTs ps = q.timestamp := by simp [anchorTs, he]
    have hl : lastEmTs ps = lastTsFrom q.timestamp es := by
      simp [lastEmTs, he, lastTsFrom_cons]
    rw [ha, hl]
    exact initial_le_lastTsFrom es q.timestamp hr.2 hr.1

theorem processSession_bounds (off : ℚ) (ps : List Packet) (h : tsMono ps) :
    (∀ q ∈ (processSession off ps).1,
        off ≤ q.timestamp ∧ q.timestamp ≤ (processSession off ps).2)
    ∧ off ≤ (processSession off ps).2 := by
  rw [processSession_eq]
  refine ⟨?_, ?_⟩
  · intro q hq
    simp only [List.mem_map] at hq
    obtain ⟨p, hp, rfl⟩ := hq
    have h1 : anchorTs ps ≤ p.timestamp := anchorTs_le ps h p hp
    have h2 : p.timestamp ≤ lastEmTs ps := le_lastEmTs ps h p hp
    have h3 := mul_nonneg (sub_nonneg.2 h1) timeScale_pos.le
    have h4 := mul_le_mul_of_nonneg_right
      (sub_le_sub_right h2 (anchorTs ps)) timeScale_pos.le
    simp only [rebase]
    constructor <;> [linarith; linarith]
  · have h1 := anchorTs_le_lastEmTs ps h
    have h3 := mul_nonneg (sub_nonneg.2 h1) timeScale_pos.le
    simp only
    linarith

theorem processSession_out_mono (off : ℚ) (ps : List Packet) (h : tsMono ps) :
    tsMono (processSession off ps).1 := by
  rw [processSession_eq]
  have hp := tsMono_emittedOf ps h
  simp only [tsMono, List.pairwise_map]
  refine hp.imp ?_
  intro a b hab
  simp only [rebase]
  have := mul_le_mul_of_nonneg_right
    (sub_le_sub_right hab (anchorTs ps)) timeScale_pos.le
  linarith

theorem processSessions_facts :
    ∀ (sessions : List (List Packet)) (off : ℚ),
      (∀ s ∈ sessions, tsMono s) →
      tsMono (processSessions off sessions).1.flatten
      ∧ off ≤ (processSessions off sessions).2
      ∧ ∀ q ∈ (processSessions off sessions).1.flatten,
          off ≤ q.timestamp ∧ q.timestamp ≤ (processSessions off sessions).2
  | [], off, _ => by simp [processSessions, tsMono]
  | s :: rest, off, h => by
      have hs : tsMono s := h s (List.mem_cons_self s rest)
      have hrest : ∀ t ∈ rest, tsMono t :=
        fun t ht => h t (List.mem_cons_of_mem s ht)
      obtain ⟨ihm, iho, ihb⟩ :=
        processSessions_facts rest (processSession off s).2 hrest
      obtain ⟨hb, ho⟩ := processSession_bounds off s hs
      have hm1 := processSession_out_mono off s hs
      simp only [processSessions, List.flatten_cons]
      refine ⟨?_, ho.trans iho, ?_⟩
      · rw [tsMono, List.pairwise_append]
        refine ⟨hm1, ihm, ?_⟩
        intro a ha b hbmem
        exact le_trans (hb a ha).2 (ihb b hbmem).1
      · intro q hq
        rcases List.mem_append.1 hq with h1 | h1
        · exact ⟨(hb q h1).1, le_trans (hb q h1).2 iho⟩
        · exact ⟨le_trans ho (ihb q h1).1, (ihb q h1).2⟩

theorem getLast?_ts_eq_lastTsFrom :
    ∀ (es : List Packet) (l : ℚ), es ≠ [] →
      es.getLast?.map Packet.timestamp = some (lastTsFrom l es)
  | [], _, h => absurd rfl h
  | [x], l, _ => by simp [lastTsFrom]
  | x :: y :: rest, l, _ => by
      rw [List.getLast?_cons_cons, lastTsFrom_cons]
      exact getLast?_ts_eq_lastTsFrom (y :: rest) x.timestamp (List.cons_ne_nil y rest)

/-- C1 (amended): after each session is fully consumed, the output timestamp
of the first emitted unit of session i+1 equals the output timestamp of the
last emitted unit of session i (the rebased duration of the last unit is
NOT added, so the rebased ranges of consecutive sessions share that instant
and overlap by the rebased duration of the last unit), and across the whole
output consecutive rebased timestamps are non-decreasing whenever the
source timestamps of every session are non-decreasing. -/
theorem c1_session_boundary_and_monotonicity :
    (∀ (off : ℚ) (s1 s2 : List Packet),
        emittedOf s1 ≠ [] → emittedOf s2 ≠ [] →
        (processSession (processSession off s1).2 s2).1.head?.map Packet.timestamp
          = (processSession off s1).1.getLast?.map Packet.timestamp)
    ∧ (∀ (off : ℚ) (sessions : List (List Packet)),
        (∀ s ∈ sessions, tsMono s) →
        tsMono (processSessions off sessions).1.flatten) := by
  constructor
  · intro off s1 s2 h1 h2
    obtain ⟨q1, es1, he1⟩ : ∃ q es, emittedOf s1 = q :: es := by
      cases he : emittedOf s1 with
      | nil => exact absurd he h1
      | cons q es => exact ⟨q, es, rfl⟩
    obtain ⟨q2, es2, he2⟩ : ∃ q es, emittedOf s2 = q :: es := by
      cases he : emittedOf s2 with
      | nil => exact absurd he h2
      | cons q es => exact ⟨q, es, rfl⟩
    have ha2 : anchorTs s2 = q2.timestamp := by simp [anchorTs, he2]
    simp only [processSession_eq, he1, he2, ha2]
    obtain ⟨xl, hxl, hxlts⟩ :
        ∃ xl, (q1 :: es1).getLast? = some xl
          ∧ xl.timestamp = lastTsFrom 0 (q1 :: es1) := by
      have := getLast?_ts_eq_lastTsFrom (q1 :: es1) 0 (List.cons_ne_nil q1 es1)
      cases hgl : (q1 :: es1).getLast? with
      | none => rw [hgl] at this; simp at this
      | some xl =>
        rw [hgl] at this
        exact ⟨xl, rfl, by simpa using this⟩
    have hlast : lastEmTs s1 = xl.timestamp := by
      rw [lastEmTs, he1, hxlts]
    rw [List.getLast?_map, hxl]
    simp only [List.map_cons, List.head?_cons, Option.map_some']
    rw [Option.some_inj]
    simp only [rebase]
    rw [hlast]
    ring
  · intro off sessions h
    exact (processSessions_facts sessions off h).1

/-- Evaluation of the assembly arithmetic on one concrete session whose
first unit has zero duration. -/
theorem processSession_ex1 :
    processSession 0 [⟨0, 0⟩, ⟨10, 5⟩] = ([⟨0, 1/12⟩], 0) := by
  norm_num [processSession, sessionSteps, timeScale_eq]

/-- Evaluation of the assembly arithmetic on two concrete identical
sessions of two units each. -/
theorem processSessions_ex2 :
    processSessions 0 [[⟨0, 2500⟩, ⟨2500, 2500⟩], [⟨0, 2500⟩, ⟨2500, 2500⟩]]
      = ([[⟨0, 125/3⟩, ⟨125/3, 125/3⟩], [⟨125/3, 125/3⟩, ⟨250/3, 125/3⟩]],
          250/3) := by
  norm_num [processSessions, processSession, sessionSteps, timeScale_eq]

/-- The two-unit session used in concrete instantiations survives the
zero-duration filter whole. -/
theorem emittedOf_ex2 :
    emittedOf [⟨0, 2500⟩, ⟨2500, 2500⟩] = [⟨0, 2500⟩, ⟨2500, 2500⟩] := by
  rw [emittedOf_cons, emittedOf_cons]
  norm_num [emittedOf]

/-- C1 (counterexample to the claim as stated): two identical sessions of two
2500ms-spaced units of duration 2500.  The first output unit of session 2 has
timestamp 125/3, which equals the output timestamp of the last unit of
session 1 (125/3) WITHOUT the rebased duration of that unit (125/3) added;
the claim predicts 125/3 + 125/3 = 250/3. -/
theorem c1_counterexample :
    (processSessions 0
        [[⟨0, 2500⟩, ⟨2500, 2500⟩], [⟨0, 2500⟩, ⟨2500, 2500⟩]]).1
      = [[⟨0, 125/3⟩, ⟨125/3, 125/3⟩], [⟨125/3, 125/3⟩, ⟨250/3, 125/3⟩]]
    ∧ ¬ ((125 : ℚ)/3 = 125/3 + 125/3) := by
  refine ⟨by rw [processSessions_ex2], by norm_num⟩

/-- C1 (witness): the boundary equation and the monotonicity statement of
c1_session_boundary_and_monotonicity, instantiated at a concrete
two-session run. -/
theorem c1_witness :
    (processSession (processSession 0 [⟨0, 2500⟩, ⟨2500, 2500⟩]).2
        [⟨0, 2500⟩, ⟨2500, 2500⟩]).1.head?.map Packet.timestamp
      = (processSession 0 [⟨0, 2500⟩, ⟨2500, 2500⟩]).1.getLast?.map Packet.timestamp
    ∧ tsMono (processSessions 0 [[⟨0, 2500⟩, ⟨2500, 2500⟩]]).1.flatten :=
  ⟨c1_session_boundary_and_monotonicity.1 0 _ _
      (by rw [emittedOf_ex2]; exact List.cons_ne_nil _ _)
      (by rw [emittedOf_ex2]; exact List.cons_ne_nil _ _),
    c1_session_boundary_and_monotonicity.2 0 [[⟨0, 2500⟩, ⟨2500, 2500⟩]]
      (by
        intro s hs
        simp only [List.mem_singleton] at hs
        subst hs
        norm_num [tsMono, List.pairwise_cons])⟩

/-- The two-session scenario of the spec: 10 units spaced 2500 ms apart,
each of duration 2500. -/
def session10 : List Packet :=
  [⟨0, 2500⟩, ⟨2500, 2500⟩, ⟨5000, 2500⟩, ⟨7500, 2500⟩, ⟨10000, 2500⟩,
    ⟨12500, 2500⟩, ⟨15000, 2500⟩, ⟨17500, 2500⟩, ⟨20000, 2500⟩, ⟨22500, 2500⟩]

/-- C3 (amended): timeScale equals (1000 / 2500) / 24 = 0.4 / 24; every
output timestamp of every emitted unit is
(unitTimestamp - localFirstTimestamp) * timeScale + globalTimeOffset and its
output duration is unitDuration * timeScale, where localFirstTimestamp is
the timestamp of the first NONZERO-DURATION unit of the session (anchorTs);
and two sessions of 10 units spaced 2500 ms apart leave a final
globalTimeOffset of exactly (9 * 2500 * 2) / 60 = 750 output-time-units. -/
theorem c3_rebasing_formula :
    timeScale = (1000 / 2500) / 24
    ∧ (∀ (off : ℚ) (ps : List Packet),
        (processSession off ps).1 =
          (emittedOf ps).map fun p =>
            ⟨(p.timestamp - anchorTs ps) * timeScale + off,
              p.duration * timeScale⟩)
    ∧ (processSessions 0 [session10, session10]).2 = 750 := by
  have hem : emittedOf session10 = session10 := by
    norm_num [session10, emittedOf_cons, emittedOf]
  have ha : anchorTs session10 = 0 := by
    unfold anchorTs
    rw [hem]
    rfl
  have hl : lastEmTs session10 = 22500 := by
    rw [lastEmTs, hem]; rfl
  have h1 : ∀ off : ℚ, (processSession off session10).2 = off + 375 := by
    intro off
    rw [processSession_eq]
    simp only
    rw [ha, hl, timeScale_eq]
    norm_num
  refine ⟨by rw [timeScale_eq]; norm_num, ?_, ?_⟩
  · intro off ps
    rw [processSession_eq]
    rfl
  · have hfinal : (processSessions 0 [session10, session10]).2
        = (processSession (processSession 0 session10).2 session10).2 := rfl
    rw [hfinal, h1, h1]
    norm_num

/-- C3 (counterexample to the claim as stated): in a session whose first
unit has zero duration, the code anchors at the first NONZERO-duration unit,
not at the first unit of the session.  For the session [(0,0), (10,5)] the single
emitted unit gets output timestamp 0, while the formula of the claim
(anchored at the first unit, timestamp 0) predicts (10 - 0) * timeScale. -/
theorem c3_counterexample :
    (processSession 0 [⟨0, 0⟩, ⟨10, 5⟩]).1 = [⟨0, 1/12⟩]
    ∧ ¬ (((10 : ℚ) - 0) * timeScale + 0 = 0) := by
  constructor
  · rw [processSession_ex1]
  · rw [timeScale_eq]; norm_num

/-- C7: units of zero source duration are skipped: processing a session (or
a whole run) is unchanged when such units are deleted up front — so they are
excluded from the output and do not perturb the globalTimeOffset advance
applied to later sessions — and every unit that does reach the output comes
from a nonzero source duration (its rebased duration is nonzero). -/
theorem c7_zero_duration_skip :
    (∀ (off : ℚ) (ps : List Packet),
        processSession off ps
          = processSession off (ps.filter fun p => p.duration != 0))
    ∧ (∀ (off : ℚ) (sessions : List (List Packet)),
        processSessions off sessions
          = processSessions off
              (sessions.map fun s => s.filter fun p => p.duration != 0))
    ∧ (∀ (off : ℚ) (ps : List Packet),
        ∀ q ∈ (processSession off ps).1, q.duration ≠ 0) := by
  have hidem : ∀ ps : List Packet, emittedOf (emittedOf ps) = emittedOf ps :=
    fun ps => List.filter_eq_self.2 fun a ha => (List.mem_filter.1 ha).2
  have h1 : ∀ (off : ℚ) (ps : List Packet),
      processSession off ps
        = processSession off (ps.filter fun p => p.duration != 0) := by
    intro off ps
    show processSession off ps = processSession off (emittedOf ps)
    rw [processSession_eq, processSession_eq]
    simp [anchorTs, lastEmTs, hidem]
  refine ⟨h1, ?_, ?_⟩
  · intro off sessions
    induction sessions generalizing off with
    | nil => rfl
    | cons s rest ih =>
      simp only [processSessions, List.map_cons]
      rw [← h1 off s, ih (processSession off s).2]
  · intro off ps q hq
    rw [processSession_eq] at hq
    simp only [List.mem_map] at hq
    obtain ⟨p, hp, rfl⟩ := hq
    have hd : p.duration ≠ 0 := by
      have := (List.mem_filter.1 hp).2
      simpa using this
    simp only [rebase]
    exact mul_ne_zero hd (by rw [timeScale_eq]; norm_num)

/-- C7 (witness): the zero-duration unit of the session [(0,0), (10,5)] is
excluded, and the emitted unit has nonzero rebased duration. -/
theorem c7_witness :
    ((⟨0, 1/12⟩ : Packet) ∈ (processSession 0 [⟨0, 0⟩, ⟨10, 5⟩]).1)
    ∧ (⟨0, (1 : ℚ)/12⟩ : Packet).duration ≠ 0 :=
  ⟨by rw [processSession_ex1]; exact List.mem_singleton.2 rfl,
    c7_zero_duration_skip.2.2 0 [⟨0, 0⟩, ⟨10, 5⟩] ⟨0, 1/12⟩
      (by rw [processSession_ex1]; exact List.mem_singleton.2 rfl)⟩

/-- A probed primary video track (mediabunny InputVideoTrack) as videoConcat
reads it: the five descriptor fields compared at lines 111 to 119, the
availability of a decoder configuration (line 146), and the unit stream of
the track.  The codec of a track can be null in mediabunny, hence Option. -/
structure Track where
  codec : Option String
  codedWidth : ℕ
  codedHeight : ℕ
  displayWidth : ℕ
  displayHeight : ℕ
  decoderConfig : Option ℕ
  packets : List Packet

/-- The remux-eligibility test of videoConcat lines 111 to 119: every track
matches the first track on codec, coded width and height, and display width
and height. -/
def canRemux (firstTrack : Track) (inputPrimaryTracks : List Track) : Bool :=
  inputPrimaryTracks.all fun x =>
    firstTrack.codec == x.codec &&
    firstTrack.codedWidth == x.codedWidth &&
    firstTrack.codedHeight == x.codedHeight &&
    firstTrack.displayWidth == x.displayWidth &&
    firstTrack.displayHeight == x.displayHeight

/-- The throw sites of the assembly run, one constructor per site. -/
inductive ConcatError
  | emptyInput
  | noUsableSessions
  | noEncodableCodec
  | noDecoderConfig
  | finalizationNoData
deriving DecidableEq

/-- Environment capabilities consumed by videoConcat: what
getFirstEncodableVideoCodec returns for the coded dimensions of the first track
(lines 90 to 97), and whether the buffer target holds data after finalize
(line 220). -/
structure ConcatEnv where
  encodableCodec : ℕ → ℕ → Option String
  finalizeNonEmpty : Bool

/-- The session loop of videoConcat (lines 141 to 215), one track at a
time: the decoder config of the session is fetched and asserted non-null
(lines 146 to 147) before its units are rebased and emitted; the thrown
assertion aborts the whole loop. -/
def concatLoop (globalTimeOffset : ℚ) :
    List Track → Except ConcatError (List (List Packet) × ℚ)
  | [] => .ok ([], globalTimeOffset)
  | video :: rest =>
    match video.decoderConfig with
    | none => .error .noDecoderConfig
    | some _ =>
      let r := processSession globalTimeOffset video.packets
      match concatLoop r.2 rest with
      | .error e => .error e
      | .ok r2 => .ok (r.1 :: r2.1, r2.2)

/-- Value of a successful run: whether the remux path was chosen, the
rebased per-session output units, and the final global time offset. -/
structure ConcatResult where
  remux : Bool
  timeline : List (List Packet)
  finalOffset : ℚ

/-- Overall outcome of videoConcat: the returned buffer or the thrown
error, plus whether the input-disposing call at line 218 was reached. -/
structure ConcatOutcome where
  result : Except ConcatError ConcatResult
  disposed : Bool

/-- The videoConcat pipeline (lines 56 to 226).  Each input is a session
stream; getPrimaryVideoTrack yields none for a session without a usable
primary video track, and such sessions are dropped with a warning (lines
77 to 84).  Control flow in source order: the nonempty-inputs assert
(line 67), the null-track drop and the no-usable-sessions assert (line 86),
encoder negotiation and its throw (lines 90 to 104), the remux decision
(lines 111 to 119), the session loop (lines 141 to 215), finalize, the
dispose of all inputs (line 218), and the empty-buffer check (lines 220
to 223). -/
def videoConcat (env : ConcatEnv) (inputs : List (Option Track)) :
    ConcatOutcome :=
  if inputs.length = 0 then ⟨.error .emptyInput, false⟩
  else
    match inputs.filterMap id with
    | [] => ⟨.error .noUsableSessions, false⟩
    | firstTrack :: rest =>
      match env.encodableCodec firstTrack.codedWidth firstTrack.codedHeight with
      | none => ⟨.error .noEncodableCodec, false⟩
      | some _ =>
        let remux := canRemux firstTrack (firstTrack :: rest)
        match concatLoop 0 (firstTrack :: rest) with
        | .error e => ⟨.error e, false⟩
        | .ok r =>
          if env.finalizeNonEmpty then ⟨.ok ⟨remux, r.1, r.2⟩, true⟩
          else ⟨.error .finalizationNoData, true⟩

theorem concatLoop_ok_of_all :
    ∀ (off : ℚ) (tracks : List Track),
      (∀ t ∈ tracks, t.decoderConfig ≠ none) →
      concatLoop off tracks
        = .ok (processSessions off (tracks.map Track.packets))
  | _, [], _ => rfl
  | off, video :: rest, h => by
      cases hc : video.decoderConfig with
      | none => exact absurd hc (h video (List.mem_cons_self video rest))
      | some c =>
        have ih := concatLoop_ok_of_all (processSession off video.packets).2
          rest (fun t ht => h t (List.mem_cons_of_mem video ht))
        simp only [concatLoop, hc, ih]
        rfl

theorem concatLoop_error_of_any :
    ∀ (off : ℚ) (tracks : List Track),
      (∃ t ∈ tracks, t.decoderConfig = none) →
      concatLoop off tracks = .error .noDecoderConfig
  | _, [], h => absurd h (by simp)
  | off, video :: rest, h => by
      cases hc : video.decoderConfig with
      | none => simp only [concatLoop, hc]
      | some c =>
        obtain ⟨t, ht, htc⟩ := h
        rcases List.mem_cons.1 ht with rfl | ht2
        · rw [hc] at htc; cases htc
        · have ih := concatLoop_error_of_any
            (processSession off video.packets).2 rest ⟨t, ht2, htc⟩
          simp only [concatLoop, hc, ih]

theorem videoConcat_empty (env : ConcatEnv) :
    videoConcat env [] = ⟨.error .emptyInput, false⟩ := rfl

theorem filterMap_ne_nil_length {inputs : List (Option Track)} {t : Track}
    {rest : List Track} (hf : inputs.filterMap id = t :: rest) :
    inputs.length ≠ 0 := by
  intro h0
  rw [List.length_eq_zero] at h0
  subst h0
  simp at hf

theorem videoConcat_noUsable (env : ConcatEnv) (inputs : List (Option Track))
    (h1 : inputs ≠ []) (h2 : inputs.filterMap id = []) :
    videoConcat env inputs = ⟨.error .noUsableSessions, false⟩ := by
  have h0 : inputs.length ≠ 0 := fun h => h1 (List.length_eq_zero.1 h)
  simp only [videoConcat, h2, if_neg h0]

theorem videoConcat_noEncodable (env : ConcatEnv)
    (inputs : List (Option Track)) (t : Track) (rest : List Track)
    (hf : inputs.filterMap id = t :: rest)
    (henc : env.encodableCodec t.codedWidth t.codedHeight = none) :
    videoConcat env inputs = ⟨.error .noEncodableCodec, false⟩ := by
  simp only [videoConcat, hf, henc, if_neg (filterMap_ne_nil_length hf)]

theorem videoConcat_noDecoder (env : ConcatEnv)
    (inputs : List (Option Track)) (t : Track) (rest : List Track)
    (hf : inputs.filterMap id = t :: rest)
    (henc : (env.encodableCodec t.codedWidth t.codedHeight).isSome)
    (hcfg : ∃ x ∈ t :: rest, x.decoderConfig = none) :
    videoConcat env inputs = ⟨.error .noDecoderConfig, false⟩ := by
  obtain ⟨c, hc⟩ := Option.isSome_iff_exists.1 henc
  have hloop := concatLoop_error_of_any 0 (t :: rest) hcfg
  simp only [videoConcat, hf, hc, hloop, if_neg (filterMap_ne_nil_length hf)]

theorem videoConcat_run (env : ConcatEnv) (inputs : List (Option Track))
    (t : Track) (rest : List Track) (c : String)
    (hf : inputs.filterMap id = t :: rest)
    (hc : env.encodableCodec t.codedWidth t.codedHeight = some c)
    (hall : ∀ x ∈ t :: rest, x.decoderConfig ≠ none) :
    videoConcat env inputs =
      if env.finalizeNonEmpty then
        ⟨.ok ⟨canRemux t (t :: rest),
          (processSessions 0 ((t :: rest).map Track.packets)).1,
          (processSessions 0 ((t :: rest).map Track.packets)).2⟩, true⟩
      else ⟨.error .finalizationNoData, true⟩ := by
  have hloop := concatLoop_ok_of_all 0 (t :: rest) hall
  simp only [videoConcat, hf, hc, hloop, if_neg (filterMap_ne_nil_length hf)]

theorem videoConcat_result_classify (env : ConcatEnv)
    (inputs : List (Option Track)) (e : ConcatError)
    (h : (videoConcat env inputs).result = .error e) :
    (e = .emptyInput ∧ inputs = [])
    ∨ (e = .noUsableSessions ∧ inputs ≠ [] ∧ inputs.filterMap id = [])
    ∨ (∃ t rest, inputs.filterMap id = t :: rest ∧
        ((e = .noEncodableCodec
            ∧ env.encodableCodec t.codedWidth t.codedHeight = none)
          ∨ ((env.encodableCodec t.codedWidth t.codedHeight).isSome ∧
              ((e = .noDecoderConfig ∧ ∃ x ∈ t :: rest, x.decoderConfig = none)
                ∨ (e = .finalizationNoData
                    ∧ (∀ x ∈ t :: rest, x.decoderConfig ≠ none)
                    ∧ env.finalizeNonEmpty = false))))) := by
  by_cases h0 : inputs = []
  · subst h0
    rw [videoConcat_empty] at h
    simp only [Except.error.injEq] at h
    exact Or.inl ⟨h.symm, rfl⟩
  · cases hfm : inputs.filterMap id with
    | nil =>
      rw [videoConcat_noUsable env inputs h0 hfm] at h
      simp only [Except.error.injEq] at h
      exact Or.inr (Or.inl ⟨h.symm, h0, rfl⟩)
    | cons t rest =>
      refine Or.inr (Or.inr ⟨t, rest, rfl, ?_⟩)
      cases henc : env.encodableCodec t.codedWidth t.codedHeight with
      | none =>
        rw [videoConcat_noEncodable env inputs t rest hfm henc] at h
        simp only [Except.error.injEq] at h
        exact Or.inl ⟨h.symm, rfl⟩
      | some c =>
        refine Or.inr ⟨rfl, ?_⟩
        by_cases hcfg : ∃ x ∈ t :: rest, x.decoderConfig = none
        · rw [videoConcat_noDecoder env inputs t rest hfm
            (by rw [henc]; rfl) hcfg] at h
          simp only [Except.error.injEq] at h
          exact Or.inl ⟨h.symm, hcfg⟩
        · push_neg at hcfg
          rw [videoConcat_run env inputs t rest c hfm henc hcfg] at h
          by_cases hfin : env.finalizeNonEmpty
          · rw [if_pos hfin] at h
            simp at h
          · rw [if_neg hfin] at h
            simp only [Except.error.injEq] at h
            exact Or.inr ⟨h.symm, hcfg, Bool.eq_false_iff.2 hfin⟩

/-- A usable concrete track fixture. -/
def trackA : Track := ⟨some "avc1", 1920, 1080, 1920, 1080, some 0, []⟩

/-- A track fixture whose decoder configuration is unavailable. -/
def trackNoCfg : Track := ⟨some "avc1", 1920, 1080, 1920, 1080, none, []⟩

/-- An environment that can encode and produces a non-empty buffer. -/
def envEncode : ConcatEnv := ⟨fun _ _ => some "avc1", true⟩

/-- An environment in which no candidate codec is encodable. -/
def envNoEncode : ConcatEnv := ⟨fun _ _ => none, true⟩

/-- C2: the remux path is chosen iff the track of every surviving session matches
the first surviving track exactly on codec, coded width, coded height,
display width and display height; any mismatch selects the transcode
path. -/
theorem c2_remux_decision :
    (∀ (firstTrack : Track) (tracks : List Track),
        canRemux firstTrack tracks = true ↔
          ∀ x ∈ tracks,
            firstTrack.codec = x.codec ∧
            firstTrack.codedWidth = x.codedWidth ∧
            firstTrack.codedHeight = x.codedHeight ∧
            firstTrack.displayWidth = x.displayWidth ∧
            firstTrack.displayHeight = x.displayHeight)
    ∧ (∀ (env : ConcatEnv) (inputs : List (Option Track)) (t : Track)
          (rest : List Track) (r : ConcatResult),
        inputs.filterMap id = t :: rest →
        (videoConcat env inputs).result = .ok r →
        r.remux = canRemux t (t :: rest)) := by
  constructor
  · intro firstTrack tracks
    simp only [canRemux, List.all_eq_true, Bool.and_eq_true, beq_iff_eq]
    constructor
    · intro h x hx
      obtain ⟨⟨⟨⟨h1, h2⟩, h3⟩, h4⟩, h5⟩ := h x hx
      exact ⟨h1, h2, h3, h4, h5⟩
    · intro h x hx
      obtain ⟨h1, h2, h3, h4, h5⟩ := h x hx
      exact ⟨⟨⟨⟨h1, h2⟩, h3⟩, h4⟩, h5⟩
  · intro env inputs t rest r hf hr
    cases henc : env.encodableCodec t.codedWidth t.codedHeight with
    | none =>
      rw [videoConcat_noEncodable env inputs t rest hf henc] at hr
      simp at hr
    | some c =>
      by_cases hcfg : ∃ x ∈ t :: rest, x.decoderConfig = none
      · rw [videoConcat_noDecoder env inputs t rest hf
          (by rw [henc]; rfl) hcfg] at hr
        simp at hr
      · push_neg at hcfg
        rw [videoConcat_run env inputs t rest c hf henc hcfg] at hr
        by_cases hfin : env.finalizeNonEmpty
        · rw [if_pos hfin] at hr
          simp only [Except.ok.injEq] at hr
          rw [← hr]
        · rw [if_neg hfin] at hr
          simp at hr

/-- C2 (witness): a single-track run is remux-eligible, and a successful
concrete run reports the remux decision for its surviving tracks. -/
theorem c2_witness :
    (∀ x ∈ [trackA],
        trackA.codec = x.codec ∧
        trackA.codedWidth = x.codedWidth ∧
        trackA.codedHeight = x.codedHeight ∧
        trackA.displayWidth = x.displayWidth ∧
        trackA.displayHeight = x.displayHeight)
    ∧ (⟨true, [[]], 0⟩ : ConcatResult).remux = canRemux trackA [trackA] :=
  ⟨(c2_remux_decision.1 trackA [trackA]).1 rfl,
    c2_remux_decision.2 envEncode [some trackA] trackA [] ⟨true, [[]], 0⟩
      rfl rfl⟩

/-- C10: encoder negotiation and its fatal no-encodable-codec error happen
before the remux decision: whenever the environment cannot encode at the
coded dimensions of the first surviving track, the run throws, even when every
track is remux-eligible. -/
theorem c10_encoder_negotiation_precedes_remux :
    ∀ (env : ConcatEnv) (inputs : List (Option Track)) (t : Track)
      (rest : List Track),
      inputs.filterMap id = t :: rest →
      env.encodableCodec t.codedWidth t.codedHeight = none →
      canRemux t (t :: rest) = true →
      (videoConcat env inputs).result = .error .noEncodableCodec := by
  intro env inputs t rest hf henc _
  rw [videoConcat_noEncodable env inputs t rest hf henc]

/-- C10 (witness): a remux-eligible single-track run still throws the
no-encodable-codec error in an environment that cannot encode. -/
theorem c10_witness :
    (videoConcat envNoEncode [some trackA]).result = .error .noEncodableCodec :=
  c10_encoder_negotiation_precedes_remux envNoEncode [some trackA] trackA []
    rfl rfl rfl

/-- C4 (amended): the run fails exactly with EmptyInput on zero inputs,
NoUsableSessions when every session is dropped, NoEncodableCodec when the
environment cannot encode at the dimensions of the first surviving track,
NoDecoderConfig when the decoder configuration of a surviving session is
unavailable (a fifth fatal case the claim omits), and
FinalizationProducedNoData when the finalized buffer is empty; and a
session dropped for lacking a usable video track never changes the outcome
of a run that still has the same surviving tracks. -/
theorem c4_error_taxonomy :
    ∀ (env : ConcatEnv) (inputs : List (Option Track)),
      ((videoConcat env inputs).result = .error .emptyInput ↔ inputs = [])
      ∧ ((videoConcat env inputs).result = .error .noUsableSessions
          ↔ inputs ≠ [] ∧ inputs.filterMap id = [])
      ∧ ((videoConcat env inputs).result = .error .noEncodableCodec
          ↔ ∃ t rest, inputs.filterMap id = t :: rest
              ∧ env.encodableCodec t.codedWidth t.codedHeight = none)
      ∧ ((videoConcat env inputs).result = .error .noDecoderConfig
          ↔ ∃ t rest, inputs.filterMap id = t :: rest
              ∧ (env.encodableCodec t.codedWidth t.codedHeight).isSome
              ∧ ∃ x ∈ t :: rest, x.decoderConfig = none)
      ∧ ((videoConcat env inputs).result = .error .finalizationNoData
          ↔ ∃ t rest, inputs.filterMap id = t :: rest
              ∧ (env.encodableCodec t.codedWidth t.codedHeight).isSome
              ∧ (∀ x ∈ t :: rest, x.decoderConfig ≠ none)
              ∧ env.finalizeNonEmpty = false)
      ∧ (∀ inputs2 : List (Option Track), inputs ≠ [] → inputs2 ≠ [] →
          inputs.filterMap id = inputs2.filterMap id →
          videoConcat env inputs = videoConcat env inputs2) := by
  intro env inputs
  refine ⟨⟨?_, ?_⟩, ⟨?_, ?_⟩, ⟨?_, ?_⟩, ⟨?_, ?_⟩, ⟨?_, ?_⟩, ?_⟩
  · intro h
    rcases videoConcat_result_classify env inputs _ h with
      ⟨_, h2⟩ | ⟨he, _⟩ | ⟨t, rest, hfm, hrest⟩
    · exact h2
    · simp at he
    · rcases hrest with ⟨he, _⟩ | ⟨_, ⟨he, _⟩ | ⟨he, _⟩⟩ <;> simp at he
  · intro h; subst h; rfl
  · intro h
    rcases videoConcat_result_classify env inputs _ h with
      ⟨he, _⟩ | ⟨_, h2⟩ | ⟨t, rest, hfm, hrest⟩
    · simp at he
    · exact h2
    · rcases hrest with ⟨he, _⟩ | ⟨_, ⟨he, _⟩ | ⟨he, _⟩⟩ <;> simp at he
  · rintro ⟨h1, h2⟩
    rw [videoConcat_noUsable env inputs h1 h2]
  · intro h
    rcases videoConcat_result_classify env inputs _ h with
      ⟨he, _⟩ | ⟨he, _⟩ | ⟨t, rest, hfm, hrest⟩
    · simp at he
    · simp at he
    · rcases hrest with ⟨_, henc⟩ | ⟨_, ⟨he, _⟩ | ⟨he, _⟩⟩
      · exact ⟨t, rest, hfm, henc⟩
      · simp at he
      · simp at he
  · rintro ⟨t, rest, hf, henc⟩
    rw [videoConcat_noEncodable env inputs t rest hf henc]
  · intro h
    rcases videoConcat_result_classify env inputs _ h with
      ⟨he, _⟩ | ⟨he, _⟩ | ⟨t, rest, hfm, hrest⟩
    · simp at he
    · simp at he
    · rcases hrest with ⟨he, _⟩ | ⟨hs, ⟨_, hcfg⟩ | ⟨he, _⟩⟩
      · simp at he
      · exact ⟨t, rest, hfm, hs, hcfg⟩
      · simp at he
  · rintro ⟨t, rest, hf, hs, hcfg⟩
    rw [videoConcat_noDecoder env inputs t rest hf hs hcfg]
  · intro h
    rcases videoConcat_result_classify env inputs _ h with
      ⟨he, _⟩ | ⟨he, _⟩ | ⟨t, rest, hfm, hrest⟩
    · simp at he
    · simp at he
    · rcases hrest with ⟨he, _⟩ | ⟨hs, ⟨he, _⟩ | ⟨_, hall, hfin⟩⟩
      · simp at he
      · simp at he
      · exact ⟨t, rest, hfm, hs, hall, hfin⟩
  · rintro ⟨t, rest, hf, hs, hall, hfin⟩
    obtain ⟨c, hc⟩ := Option.isSome_iff_exists.1 hs
    rw [videoConcat_run env inputs t rest c hf hc hall,
      if_neg (by simp [hfin])]
  · intro inputs2 h1 h2 h
    cases hfm : inputs.filterMap id with
    | nil =>
      rw [videoConcat_noUsable env inputs h1 hfm,
        videoConcat_noUsable env inputs2 h2 (by rw [← h, hfm])]
    | cons t rest =>
      have hfm2 : inputs2.filterMap id = t :: rest := by rw [← h, hfm]
      cases henc : env.encodableCodec t.codedWidth t.codedHeight with
      | none =>
        rw [videoConcat_noEncodable env inputs t rest hfm henc,
          videoConcat_noEncodable env inputs2 t rest hfm2 henc]
      | some c =>
        by_cases hcfg : ∃ x ∈ t :: rest, x.decoderConfig = none
        · rw [videoConcat_noDecoder env inputs t rest hfm
            (by rw [henc]; rfl) hcfg,
            videoConcat_noDecoder env inputs2 t rest hfm2
            (by rw [henc]; rfl) hcfg]
        · push_neg at hcfg
          rw [videoConcat_run env inputs t rest c hfm henc hcfg,
            videoConcat_run env inputs2 t rest c hfm2 henc hcfg]

/-- C4 (counterexample to the claim as stated): a run over one usable
session whose decoder configuration is unavailable fails fatally with the
decoder-config assertion, a fifth fatal case distinct from the four the
claim lists. -/
theorem c4_counterexample :
    (videoConcat envEncode [some trackNoCfg]).result
      = .error .noDecoderConfig
    ∧ ConcatError.noDecoderConfig ≠ .emptyInput
    ∧ ConcatError.noDecoderConfig ≠ .noUsableSessions
    ∧ ConcatError.noDecoderConfig ≠ .noEncodableCodec
    ∧ ConcatError.noDecoderConfig ≠ .finalizationNoData :=
  ⟨rfl, by decide, by decide, by decide, by decide⟩

/-- C4 (witness): dropping a null-track session leaves the outcome of a run
with the same surviving tracks unchanged. -/
theorem c4_witness :
    videoConcat envEncode [none, some trackA]
      = videoConcat envEncode [some trackA] :=
  (c4_error_taxonomy envEncode [none, some trackA]).2.2.2.2.2
    [some trackA] (by simp) (by simp) rfl

/-- C5 (amended): the inputs are disposed exactly when the run reaches
finalization — on success and on the FinalizationProducedNoData path — and
NOT on the earlier fatal error paths (EmptyInput, NoUsableSessions,
NoEncodableCodec, NoDecoderConfig). -/
theorem c5_disposal_iff :
    ∀ (env : ConcatEnv) (inputs : List (Option Track)),
      (videoConcat env inputs).disposed = true ↔
        ((videoConcat env inputs).result = .error .finalizationNoData
          ∨ ∃ r, (videoConcat env inputs).result = .ok r) := by
  intro env inputs
  by_cases h0 : inputs = []
  · subst h0
    rw [videoConcat_empty]
    constructor
    · intro h; simp at h
    · rintro (h | ⟨r, h⟩) <;> simp at h
  · cases hfm : inputs.filterMap id with
    | nil =>
      rw [videoConcat_noUsable env inputs h0 hfm]
      constructor
      · intro h; simp at h
      · rintro (h | ⟨r, h⟩) <;> simp at h
    | cons t rest =>
      cases henc : env.encodableCodec t.codedWidth t.codedHeight with
      | none =>
        rw [videoConcat_noEncodable env inputs t rest hfm henc]
        constructor
        · intro h; simp at h
        · rintro (h | ⟨r, h⟩) <;> simp at h
      | some c =>
        by_cases hcfg : ∃ x ∈ t :: rest, x.decoderConfig = none
        · rw [videoConcat_noDecoder env inputs t rest hfm
            (by rw [henc]; rfl) hcfg]
          constructor
          · intro h; simp at h
          · rintro (h | ⟨r, h⟩) <;> simp at h
        · push_neg at hcfg
          rw [videoConcat_run env inputs t rest c hfm henc hcfg]
          by_cases hfin : env.finalizeNonEmpty
          · rw [if_pos hfin]
            exact ⟨fun _ => Or.inr ⟨_, rfl⟩, fun _ => rfl⟩
          · rw [if_neg hfin]
            exact ⟨fun _ => Or.inl rfl, fun _ => rfl⟩

/-- C5 (counterexample to the claim as stated): a run failing with
NoEncodableCodec exits without disposing its opened inputs. -/
theorem c5_counterexample :
    (videoConcat envNoEncode [some trackA]).result
      = .error .noEncodableCodec
    ∧ (videoConcat envNoEncode [some trackA]).disposed = false :=
  ⟨rfl, rfl⟩

/-- C5 (witness): a successful concrete run does dispose its inputs. -/
theorem c5_witness :
    (videoConcat envEncode [some trackA]).disposed = true :=
  (c5_disposal_iff envEncode [some trackA]).2 (Or.inr ⟨⟨true, [[]], 0⟩, rfl⟩)

/-- C6 (amended): when the decoder configuration of any surviving session cannot
be obtained, the WHOLE run is aborted by the thrown assertion (and without
disposing the inputs); the code does not skip that session and continue. -/
theorem c6_missing_decoder_config_aborts_run :
    ∀ (env : ConcatEnv) (inputs : List (Option Track)) (t : Track)
      (rest : List Track),
      inputs.filterMap id = t :: rest →
      (env.encodableCodec t.codedWidth t.codedHeight).isSome →
      (∃ x ∈ t :: rest, x.decoderConfig = none) →
      (videoConcat env inputs).result = .error .noDecoderConfig
      ∧ (videoConcat env inputs).disposed = false := by
  intro env inputs t rest hf hs hcfg
  rw [videoConcat_noDecoder env inputs t rest hf hs hcfg]
  exact ⟨rfl, rfl⟩

/-- C6 (counterexample to the claim as stated): a two-session run whose
second session lacks a decoder configuration is aborted entirely with the
fatal decoder-config error, rather than dropping only the contribution of
that session and continuing. -/
theorem c6_counterexample :
    (videoConcat envEncode [some trackA, some trackNoCfg]).result
      = .error .noDecoderConfig
    ∧ (videoConcat envEncode [some trackA, some trackNoCfg]).disposed
      = false :=
  ⟨rfl, rfl⟩

/-- C6 (witness): the amended statement instantiated at the concrete
two-session run with one missing decoder configuration. -/
theorem c6_witness :
    (videoConcat envEncode [some trackNoCfg, some trackA]).result
      = .error .noDecoderConfig
    ∧ (videoConcat envEncode [some trackNoCfg, some trackA]).disposed
      = false :=
  c6_missing_decoder_config_aborts_run envEncode
    [some trackNoCfg, some trackA] trackNoCfg [trackA] rfl rfl
    ⟨trackNoCfg, by simp, rfl⟩

/-- A probed track as makeThumbnail reads it (lines 312 to 329): codec
nullability, decodability, and display geometry. -/
structure ThumbTrack where
  codec : Option String
  canDecode : Bool
  displayWidth : ℕ
  displayHeight : ℕ

/-- An image blob produced by the thumbnail tiers, by provenance. -/
inductive ThumbBlob
  | fromCanvas (c : ℕ)
  | jpeg (width height : ℕ) (filled : Bool)
  | emptyJpeg
deriving DecidableEq

/-- Behaviour of the browser and mediabunny calls the three thumbnail tiers
depend on, for one given video blob: the probed primary track, the canvases
returned at the midpoint and first timestamps, whether the JPEG encoding of
each tier succeeds, whether the fallback video element loads, and whether 2d
contexts are available. -/
structure ThumbEnv where
  primaryTrack : Option ThumbTrack
  midCanvas : Option ℕ
  firstCanvas : Option ℕ
  encodeTier1Ok : Bool
  videoLoadOk : Bool
  ctxTier2Ok : Bool
  encodeTier2Ok : Bool
  tier2Canvas : ℕ
  ctxTier3Ok : Bool
  encodeTier3Ok : Bool

/-- The primary tier (makeThumbnail, lines 306 to 377): throws when the
blob has no primary video track, when the codec is null or not decodable,
when neither the midpoint nor the first timestamp yields a canvas (the
assert at line 350), or when JPEG encoding returns null. -/
def makeThumbnail (env : ThumbEnv) : Except String ThumbBlob :=
  match env.primaryTrack with
  | none => .error "Attempted to generate a thumbnail for a video without a video track."
  | some video =>
    if video.codec = none ∨ video.canDecode = false then
      .error "Unsupported codec. Try using a different browser."
    else
      match (match env.midCanvas with
             | some c => some c
             | none => env.firstCanvas) with
      | none => .error "sink.canvasesAtTimestamps for first timestamp returned nothing or null"
      | some c =>
        if env.encodeTier1Ok then .ok (.fromCanvas c)
        else .error "canvas.toBlob() returned null."

/-- The fallback tier (makeFallbackThumbnail, lines 228 to 275): throws
when the hidden video element fails to load, when no 2d context is
available, or when JPEG encoding returns null. -/
def makeFallbackThumbnail (env : ThumbEnv) : Except String ThumbBlob :=
  if env.videoLoadOk = false then
    .error "Failed to load video for thumbnail generation"
  else if env.ctxTier2Ok = false then
    .error "Could not get 2D context from canvas"
  else if env.encodeTier2Ok = false then
    .error "canvas.toBlob() returned null in fallback"
  else .ok (.fromCanvas env.tier2Canvas)

/-- The last-resort tier (getBlackImage, lines 280 to 301): a fresh
THUMBNAIL_SIZE square canvas, filled black when a 2d context is available,
encoded as JPEG; a null toBlob yields the zero-byte image/jpeg blob.  This
tier never throws. -/
def getBlackImage (env : ThumbEnv) : ThumbBlob :=
  if env.encodeTier3Ok then .jpeg THUMBNAIL_SIZE THUMBNAIL_SIZE env.ctxTier3Ok
  else .emptyJpeg

/-- videoGenerateThumbnail (lines 382 to 400): try the primary tier,
catch, try the fallback tier, catch, return the black image.  Totality of
this definition is the never-raises guarantee. -/
def videoGenerateThumbnail (env : ThumbEnv) : ThumbBlob :=
  match makeThumbnail env with
  | .ok b => b
  | .error _ =>
    match makeFallbackThumbnail env with
    | .ok b => b
    | .error _ => getBlackImage env

/-- C8 (amended): thumbnail derivation never raises (videoGenerateThumbnail
is a total function into blobs); the tiers are attempted in strict order
with each failure caught, and when both the primary and the fallback tiers
fail the result is the output of the last-resort getBlackImage tier: the
THUMBNAIL_SIZE-square solid black JPEG whenever the 2d context and the
canvas JPEG encoding are available, and the zero-byte image/jpeg blob of
lines 296 to 298 when toBlob returns null. -/
theorem c8_thumbnail_fallback_chain :
    ∀ env : ThumbEnv,
      (∀ b, makeThumbnail env = .ok b → videoGenerateThumbnail env = b)
      ∧ (∀ e b, makeThumbnail env = .error e →
          makeFallbackThumbnail env = .ok b → videoGenerateThumbnail env = b)
      ∧ (∀ e1 e2, makeThumbnail env = .error e1 →
          makeFallbackThumbnail env = .error e2 →
          videoGenerateThumbnail env = getBlackImage env)
      ∧ (env.ctxTier3Ok = true → env.encodeTier3Ok = true →
          getBlackImage env = .jpeg THUMBNAIL_SIZE THUMBNAIL_SIZE true)
      ∧ (env.encodeTier3Ok = false → getBlackImage env = .emptyJpeg) := by
  intro env
  refine ⟨?_, ?_, ?_, ?_, ?_⟩
  · intro b hb
    simp [videoGenerateThumbnail, hb]
  · intro e b h1 h2
    simp [videoGenerateThumbnail, h1, h2]
  · intro e1 e2 h1 h2
    simp [videoGenerateThumbnail, h1, h2]
  · intro h3 h4
    simp [getBlackImage, h3, h4]
  · intro h
    simp [getBlackImage, h]

/-- An environment in which the primary and fallback tiers both fail but
the last-resort canvas works. -/
def envThumbFail : ThumbEnv := ⟨none, none, none, false, false, false, false, 0, true, true⟩

/-- An environment in which the primary and fallback tiers both fail AND
the last-resort toBlob call returns null. -/
def envThumbAllFail : ThumbEnv := ⟨none, none, none, false, false, false, false, 0, true, false⟩

/-- C8 (counterexample to the claim as stated): in an environment where the
primary tier fails (no primary video track), the fallback tier fails (the
hidden video element does not load) and the last-resort toBlob call returns
null, the returned image is the zero-byte image/jpeg blob of lines 296 to
298 — not the fixed-size solid black JPEG the claim promises
unconditionally. -/
theorem c8_counterexample :
    makeThumbnail envThumbAllFail
      = .error "Attempted to generate a thumbnail for a video without a video track."
    ∧ makeFallbackThumbnail envThumbAllFail
      = .error "Failed to load video for thumbnail generation"
    ∧ videoGenerateThumbnail envThumbAllFail = .emptyJpeg
    ∧ ThumbBlob.emptyJpeg ≠ .jpeg THUMBNAIL_SIZE THUMBNAIL_SIZE true :=
  ⟨rfl, rfl, rfl, by decide⟩

/-- C8 (witness): with no primary track, a failing video element and a
working last-resort canvas, the chain returns the fixed-size solid black
JPEG. -/
theorem c8_witness :
    videoGenerateThumbnail envThumbFail
      = .jpeg THUMBNAIL_SIZE THUMBNAIL_SIZE true :=
  ((c8_thumbnail_fallback_chain envThumbFail).2.2.1 _ _ rfl rfl).trans
    ((c8_thumbnail_fallback_chain envThumbFail).2.2.2.1 rfl rfl)

/-- A recorded chunk as mergeVideoSessions reads it (the chunks of a
deviceStorage LocalTimelapse): a session id (a JavaScript number set to
Date.now() at session start, hence far above the array-index key range), a
capture timestamp, and an abstract data payload. -/
structure Chunk where
  session : ℕ
  timestamp : ℚ
  data : ℕ
deriving DecidableEq

/-- JavaScript Object.entries of Object.groupBy (videoProcessing.ts line
413): for property keys outside the array-index range the enumeration
order is insertion order, so groups appear in first-occurrence order of
their session id, each group holding its chunks in input order.  The
defensive filter of falsy groups in the source (line 414) is the identity here
since groupBy produces no empty groups. -/
def groupBySession : List Chunk → List (ℕ × List Chunk)
  | [] => []
  | c :: rest =>
      (c.session, c :: rest.filter fun x => x.session == c.session) ::
        groupBySession (rest.filter fun x => x.session != c.session)
termination_by l => l.length
decreasing_by
  exact Nat.lt_succ_of_le (List.length_filter_le _ _)

/-- The comparator ascending(x => x.timestamp) of shared/common.ts (it
returns picker(a) - picker(b)); toSorted with it is a stable ascending
sort by timestamp, modelled as a stable merge sort with this Boolean
total preorder. -/
def chunkLE (a b : Chunk) : Bool := a.timestamp ≤ b.timestamp

/-- mergeVideoSessions (lines 405 to 433) up to the hand-off of the
segmented per-session chunk lists to blob assembly: throws on zero chunks
(line 406), groups chunks by session id, sorts the chunks of each session by
ascending timestamp (line 417), and throws if segmentation produced an
empty array (line 422). -/
def mergeVideoSessions (chunks : List Chunk) :
    Except String (List (ℕ × List Chunk)) :=
  if chunks.length = 0 then
    .error "No chunks were found when stopping the recording. Have we forgotten to capture any?!"
  else
    let segmented := (groupBySession chunks).map
      fun x => (x.1, x.2.mergeSort chunkLE)
    if segmented.length = 0 then
      .error "Timelapse chunk segmentation resulted in an empty array"
    else .ok segmented

/-- The first-occurrence order of the session ids of a chunk list: the
order JavaScript enumerates non-index object keys in. -/
def firstOccurrences : List ℕ → List ℕ
  | [] => []
  | k :: rest => k :: firstOccurrences (rest.filter fun s => s != k)
termination_by l => l.length
decreasing_by
  exact Nat.lt_succ_of_le (List.length_filter_le _ _)

theorem groupBySession_key_mem :
    ∀ (l : List Chunk) (e : ℕ × List Chunk),
      e ∈ groupBySession l → ∃ x ∈ l, e.1 = x.session := by
  intro l
  induction l using groupBySession.induct with
  | case1 => intro e he; simp [groupBySession] at he
  | case2 c rest ih =>
    intro e he
    rw [groupBySession] at he
    rcases List.mem_cons.1 he with rfl | he2
    · exact ⟨c, List.mem_cons_self c rest, rfl⟩
    · obtain ⟨x, hx, hxe⟩ := ih e he2
      exact ⟨x, List.mem_cons_of_mem c (List.mem_of_mem_filter hx), hxe⟩

theorem groupBySession_content :
    ∀ (l : List Chunk) (e : ℕ × List Chunk),
      e ∈ groupBySession l →
      e.2 = l.filter fun x => x.session == e.1 := by
  intro l
  induction l using groupBySession.induct with
  | case1 => intro e he; simp [groupBySession] at he
  | case2 c rest ih =>
    intro e he
    rw [groupBySession] at he
    rcases List.mem_cons.1 he with rfl | he2
    · simp [List.filter_cons]
    · have hkey : e.1 ≠ c.session := by
        obtain ⟨x, hx, hxe⟩ := groupBySession_key_mem _ e he2
        obtain ⟨_, hcond⟩ := List.mem_filter.1 hx
        rw [hxe]
        exact bne_iff_ne.1 hcond
      have h2 := ih e he2
      rw [h2, List.filter_cons]
      have hc : (c.session == e.1) = false :=
        beq_eq_false_iff_ne.2 fun hcs => hkey hcs.symm
      rw [List.filter_filter]
      simp only [hc, Bool.false_eq_true, if_false]
      apply List.filter_congr
      intro x hx
      by_cases hxs : x.session = e.1
      · have hb1 : (x.session == e.1) = true := beq_iff_eq.2 hxs
        have hb2 : (x.session != c.session) = true :=
          bne_iff_ne.2 (by rw [hxs]; exact hkey)
        rw [hb1, hb2]
        rfl
      · have hb1 : (x.session == e.1) = false := beq_eq_false_iff_ne.2 hxs
        rw [hb1]
        rfl

theorem map_session_filter (k : ℕ) :
    ∀ rest : List Chunk,
      (rest.filter fun x => x.session != k).map Chunk.session
        = (rest.map Chunk.session).filter fun s => s != k
  | [] => rfl
  | x :: rest => by
      rw [List.filter_cons, List.map_cons, List.filter_cons]
      cases hb : (x.session != k) with
      | true => simp only [hb, if_true, List.map_cons, map_session_filter k rest]
      | false => simp only [hb, Bool.false_eq_true, if_false,
          map_session_filter k rest]

theorem groupBySession_keys :
    ∀ l : List Chunk,
      (groupBySession l).map Prod.fst
        = firstOccurrences (l.map Chunk.session) := by
  intro l
  induction l using groupBySession.induct with
  | case1 => simp [groupBySession, firstOccurrences]
  | case2 c rest ih =>
    rw [groupBySession, List.map_cons, List.map_cons, firstOccurrences, ih,
      map_session_filter]

theorem chunkLE_trans :
    ∀ a b c : Chunk, chunkLE a b → chunkLE b c → chunkLE a c := by
  intro a b c hab hbc
  simp only [chunkLE, decide_eq_true_eq] at hab hbc ⊢
  linarith

theorem chunkLE_total : ∀ a b : Chunk, chunkLE a b || chunkLE b a := by
  intro a b
  simp only [chunkLE, Bool.or_eq_true, decide_eq_true_eq]
  exact le_total a.timestamp b.timestamp

/-- C9 (amended): for every non-empty chunk collection the grouping
succeeds and deterministically yields a list of sessions in which each
chunks of each session are sorted by ascending timestamp and are exactly the
input chunks carrying that session id, while the sessions appear in order
of the FIRST OCCURRENCE of their session id in the input — they are not
sorted by the timestamp of their first chunk. -/
theorem c9_grouping :
    ∀ chunks : List Chunk, chunks ≠ [] →
      ∃ segs, mergeVideoSessions chunks = .ok segs
        ∧ segs.map Prod.fst = firstOccurrences (chunks.map Chunk.session)
        ∧ (∀ e ∈ segs, (e.2.map Chunk.timestamp).Pairwise (· ≤ ·))
        ∧ (∀ e ∈ segs, e.2.Perm (chunks.filter fun x => x.session == e.1)) := by
  intro chunks hne
  obtain ⟨c, rest, rfl⟩ : ∃ c rest, chunks = c :: rest := by
    cases chunks with
    | nil => exact absurd rfl hne
    | cons c rest => exact ⟨c, rest, rfl⟩
  have hlen : (c :: rest).length ≠ 0 := by simp
  have hgroup : groupBySession (c :: rest)
      = (c.session, c :: rest.filter fun x => x.session == c.session) ::
          groupBySession (rest.filter fun x => x.session != c.session) := by
    rw [groupBySession]
  refine ⟨(groupBySession (c :: rest)).map
      fun x => (x.1, x.2.mergeSort chunkLE), ?_, ?_, ?_, ?_⟩
  · rw [mergeVideoSessions, if_neg hlen]
    have hseg : ((groupBySession (c :: rest)).map
        fun x => (x.1, x.2.mergeSort chunkLE)).length ≠ 0 := by
      rw [hgroup]
      simp
    rw [if_neg hseg]
  · rw [List.map_map]
    exact groupBySession_keys (c :: rest)
  · intro e he
    obtain ⟨g, hg, rfl⟩ := List.mem_map.1 he
    have hsorted := List.sorted_mergeSort chunkLE_trans chunkLE_total g.2
    simp only [List.pairwise_map]
    refine hsorted.imp ?_
    intro a b hab
    simpa [chunkLE] using hab
  · intro e he
    obtain ⟨g, hg, rfl⟩ := List.mem_map.1 he
    have hperm := List.mergeSort_perm g.2 chunkLE
    have hcontent := groupBySession_content _ g hg
    exact hcontent ▸ hperm

/-- C9 (counterexample to the claim as stated): two chunks from two
sessions, where the session occurring first in the input has the LATER
first-chunk timestamp (100 versus 0).  The output keeps first-occurrence
order, so the session list is not sorted by first-chunk timestamp. -/
theorem c9_counterexample :
    mergeVideoSessions [⟨5000000001, 100, 0⟩, ⟨5000000000, 0, 1⟩]
      = .ok [(5000000001, [⟨5000000001, 100, 0⟩]),
          (5000000000, [⟨5000000000, 0, 1⟩])]
    ∧ ¬ ((100 : ℚ) ≤ 0) := by
  constructor
  · simp [mergeVideoSessions, groupBySession, List.mergeSort_singleton]
  · norm_num

/-- C9 (witness): the amended grouping statement instantiated at a
concrete one-chunk input. -/
theorem c9_witness :
    ∃ segs, mergeVideoSessions [⟨5000000000, 0, 1⟩] = .ok segs
      ∧ segs.map Prod.fst
          = firstOccurrences ([⟨5000000000, 0, 1⟩].map Chunk.session)
      ∧ (∀ e ∈ segs, (e.2.map Chunk.timestamp).Pairwise (· ≤ ·))
      ∧ (∀ e ∈ segs,
          e.2.Perm ([⟨5000000000, 0, 1⟩].filter fun x => x.session == e.1)) :=
  c9_grouping [⟨5000000000, 0, 1⟩] (by simp)

end Lapse
